import Mathlib

/-!
Verification of the EmailScraping repository's crawl-and-extract core.

The Python sources are shallowly embedded over `List Char`: pure string
manipulation is translated function by function, network fetches and the
external HTML parser (BeautifulSoup) are abstracted as function parameters,
and the regular expressions used by the scripts are interpreted by a small
backtracking matcher whose token language covers exactly the constructs those
patterns use (repeated character classes, literals, two-way literal
alternation, and a single capture group).
-/

namespace EmailScraping

abbrev Str := List Char

/-- ASCII uppercase letter test. -/
def isAsciiUpper (c : Char) : Bool := 'A' ≤ c && c ≤ 'Z'

/-- ASCII lowercase letter test. -/
def isAsciiLower (c : Char) : Bool := 'a' ≤ c && c ≤ 'z'

/-- ASCII letter test, the regex class a-zA-Z. -/
def isAsciiAlpha (c : Char) : Bool := isAsciiUpper c || isAsciiLower c

/-- ASCII digit test, the regex class 0-9. -/
def isAsciiDigit (c : Char) : Bool := '0' ≤ c && c ≤ '9'

/-- Whitespace as matched by Python's regex class backslash-s (ASCII range). -/
def isSpaceChar (c : Char) : Bool :=
  c == ' ' || c == '\t' || c == '\n' || c == '\r' || c == '\x0b' || c == '\x0c'

/-- Models Python str.lower on one character (ASCII range). -/
def lowerChar (c : Char) : Char :=
  if isAsciiUpper c then Char.ofNat (c.toNat + 32) else c

/-- Models Python str.lower (ASCII range). -/
def pyLower (s : Str) : Str := s.map lowerChar

/-- Models the Python substring test: needle in hay. -/
def containsSub (hay needle : Str) : Bool :=
  match hay with
  | [] => needle.isEmpty
  | _ :: rest => needle.isPrefixOf hay || containsSub rest needle

/-- Models Python s.split(sep, 1) taking the last element: the part after the
first occurrence of c, or all of s when c is absent. -/
def pyAfterFirst (c : Char) (s : Str) : Str :=
  match s.findIdx? (· == c) with
  | none => s
  | some i => s.drop (i + 1)

/-- Models Python s.split(sep, 1) taking the first element: the part before the
first occurrence of c, or all of s when c is absent. -/
def pyBeforeFirst (c : Char) (s : Str) : Str :=
  match s.findIdx? (· == c) with
  | none => s
  | some i => s.take i

/-- Models Python s.rsplit(sep, 1) taking the last element: the part after the
last occurrence of c, or all of s when c is absent. -/
def pyAfterLast (c : Char) (s : Str) : Str :=
  (s.reverse.takeWhile (fun x => x != c)).reverse

/-- Models Python s.strip(chars): remove leading and trailing characters drawn
from the given set. -/
def pyStrip (chars : Str) (s : Str) : Str :=
  ((s.dropWhile (fun c => chars.contains c)).reverse.dropWhile
    (fun c => chars.contains c)).reverse

/-- Models Python s.strip() with no argument: strip ASCII whitespace. -/
def pyStripWs (s : Str) : Str :=
  ((s.dropWhile isSpaceChar).reverse.dropWhile isSpaceChar).reverse

/-- Fuelled loop of replaceAll; every step consumes at least one character,
so fuel equal to the string length is always enough. -/
def replaceAllF (needle repl : Str) : Nat → Str → Str
  | 0, s => s
  | _ + 1, [] => []
  | fuel + 1, x :: rest =>
    if needle.isEmpty then x :: replaceAllF needle repl fuel rest
    else if needle.isPrefixOf (x :: rest) then
      repl ++ replaceAllF needle repl fuel ((x :: rest).drop needle.length)
    else x :: replaceAllF needle repl fuel rest

/-- Models Python str.replace: replace every non-overlapping occurrence of
needle (assumed nonempty) by repl, scanning left to right. -/
def replaceAll (needle repl s : Str) : Str := replaceAllF needle repl s.length s

/-- Fuelled loop of collapseAround; every step consumes at least one
character. -/
def collapseAroundF (c : Char) : Nat → Str → Str
  | 0, s => s
  | _ + 1, [] => []
  | fuel + 1, x :: rest =>
    if x = c then c :: collapseAroundF c fuel (rest.dropWhile isSpaceChar)
    else if isSpaceChar x ∧ (rest.dropWhile isSpaceChar).head? = some c then
      collapseAroundF c fuel (rest.dropWhile isSpaceChar)
    else x :: collapseAroundF c fuel rest

/-- Models re.sub of a pattern collapsing whitespace around the character c:
each occurrence of optional whitespace, c, optional whitespace is replaced by
c alone. -/
def collapseAround (c : Char) (s : Str) : Str := collapseAroundF c s.length s

/-- Models Python set.add over an insertion-ordered list representation of a
set: append the element when it is not yet present. -/
def setInsert (s : List Str) (a : Str) : List Str :=
  if s.contains a then s else s ++ [a]

/-- Models Python set.update over the insertion-ordered list representation. -/
def setUnionL (s t : List Str) : List Str := t.foldl setInsert s

/-! Regular-expression engine.

Every pattern appearing in the embedded scripts is a sequence of tokens, where
each token is a repeated character class, a captured repeated character class,
a literal, or an alternation of two literals. The matcher below interprets
such sequences with the leftmost-greedy backtracking semantics of Python re.
-/

/-- One regex token. For cls and grp, lo is the minimum repetition count and
hi the optional maximum. -/
inductive RTok where
  | cls (p : Char → Bool) (lo : Nat) (hi : Option Nat)
  | grp (p : Char → Bool) (lo : Nat) (hi : Option Nat)
  | lit (l : Str)
  | alt2 (a b : Str)

/-- Length of the longest run of characters satisfying p at the head of s. -/
def maxRun (p : Char → Bool) : Str → Nat
  | [] => 0
  | c :: rest => if p c then maxRun p rest + 1 else 0

/-- Tries f on k, k-1, ..., lo in order and returns the first success: greedy
backtracking over the repetition count of a character class. -/
def tryCountsDown (f : Nat → Option α) (lo : Nat) : Nat → Option α
  | 0 => if lo = 0 then f 0 else none
  | k + 1 =>
    if k + 1 < lo then none
    else (f (k + 1)).orElse (fun _ => tryCountsDown f lo k)

/-- Backtracking matcher for a token sequence against a prefix of s. Returns
the number of characters consumed and the text of the capture group, if any.
Repetition counts are tried from largest to smallest, so the first success is
the leftmost-greedy match, as in Python re. -/
def matchToksF : Nat → List RTok → Str → Option (Nat × Option Str)
  | 0, _, _ => none
  | _ + 1, [], _ => some (0, none)
  | fuel + 1, RTok.lit l :: rest, s =>
    if l.isPrefixOf s then
      (matchToksF fuel rest (s.drop l.length)).map
        (fun r => (l.length + r.1, r.2))
    else none
  | fuel + 1, RTok.alt2 a b :: rest, s =>
    (if a.isPrefixOf s then
      (matchToksF fuel rest (s.drop a.length)).map
        (fun r => (a.length + r.1, r.2))
     else none).orElse (fun _ =>
      if b.isPrefixOf s then
        (matchToksF fuel rest (s.drop b.length)).map
          (fun r => (b.length + r.1, r.2))
      else none)
  | fuel + 1, RTok.cls p lo hi :: rest, s =>
    let m := min (maxRun p s) (hi.getD (maxRun p s))
    tryCountsDown
      (fun k => (matchToksF fuel rest (s.drop k)).map
        (fun r => (k + r.1, r.2))) lo m
  | fuel + 1, RTok.grp p lo hi :: rest, s =>
    let m := min (maxRun p s) (hi.getD (maxRun p s))
    tryCountsDown
      (fun k => (matchToksF fuel rest (s.drop k)).map
        (fun r => (k + r.1, some (s.take k)))) lo m

/-- Backtracking matcher for a token sequence against a prefix of s (the
recursion depth is exactly the token-list length, which the wrapper supplies
as fuel). Returns the number of characters consumed and the text of the
capture group, if any. Repetition counts are tried from largest to smallest,
so the first success is the leftmost-greedy match, as in Python re. -/
def matchToks (toks : List RTok) (s : Str) : Option (Nat × Option Str) :=
  matchToksF (toks.length + 1) toks s

/-- Fuelled matcher deciding whether the token sequence matches all of s,
exploring every repetition count. -/
def matchFullF : Nat → List RTok → Str → Bool
  | 0, _, _ => false
  | _ + 1, [], s => s.isEmpty
  | fuel + 1, RTok.lit l :: rest, s =>
    l.isPrefixOf s && matchFullF fuel rest (s.drop l.length)
  | fuel + 1, RTok.alt2 a b :: rest, s =>
    (a.isPrefixOf s && matchFullF fuel rest (s.drop a.length)) ||
      (b.isPrefixOf s && matchFullF fuel rest (s.drop b.length))
  | fuel + 1, RTok.cls p lo hi :: rest, s =>
    let m := min (maxRun p s) (hi.getD (maxRun p s))
    (tryCountsDown
      (fun k => if matchFullF fuel rest (s.drop k) then some () else none)
      lo m).isSome
  | fuel + 1, RTok.grp p lo hi :: rest, s =>
    let m := min (maxRun p s) (hi.getD (maxRun p s))
    (tryCountsDown
      (fun k => if matchFullF fuel rest (s.drop k) then some () else none)
      lo m).isSome

/-- Decides whether the token sequence matches all of s: Python
re.fullmatch. -/
def matchFull (toks : List RTok) (s : Str) : Bool :=
  matchFullF (toks.length + 1) toks s

/-- Fuelled scan loop of findAllToks; every step consumes at least one
character. -/
def findAllToksF (pat : List RTok) : Nat → Str → List Str
  | 0, _ => []
  | _ + 1, [] => []
  | fuel + 1, c :: rest =>
    match matchToks pat (c :: rest) with
    | some (len, g) =>
      if 0 < len then
        (g.getD ((c :: rest).take len)) ::
          findAllToksF pat fuel ((c :: rest).drop len)
      else (g.getD []) :: findAllToksF pat fuel rest
    | none => findAllToksF pat fuel rest

/-- Models re.findall: scan left to right, on each match emit the capture
group if the pattern has one (otherwise the whole match) and continue after
the match. -/
def findAllToks (pat : List RTok) (s : Str) : List Str :=
  findAllToksF pat s.length s

/-! Character classes of the embedded patterns. -/

/-- The regex class of email local parts: a-zA-Z0-9._%+- . -/
def localCls (c : Char) : Bool :=
  isAsciiAlpha c || isAsciiDigit c || c == '.' || c == '_' || c == '%' ||
    c == '+' || c == '-'

/-- The regex class of email domains: a-zA-Z0-9.- . -/
def domainCls (c : Char) : Bool :=
  isAsciiAlpha c || isAsciiDigit c || c == '.' || c == '-'

/-- The base64 alphabet class A-Za-z0-9+/ of BASE64_REGEX. -/
def b64Cls (c : Char) : Bool :=
  isAsciiAlpha c || isAsciiDigit c || c == '+' || c == '/'

/-- The class of ROT13_CANDIDATE_REGEX. In the source the class is written
with the characters + - @ in a position where Python reads plus-to-at-sign as
a range, so every code point between 0x2B and 0x40 is included. -/
def rot13Cls (c : Char) : Bool :=
  isAsciiAlpha c || c == '.' || c == '_' || c == '%' || ('+' ≤ c && c ≤ '@')

/-- Either quote character, the regex class matching a double or single
quote. -/
def quoteCls (c : Char) : Bool := c == '"' || c == '\''

/-- EMAIL_REGEX of the extractor scripts. -/
def emailPat : List RTok :=
  [RTok.cls localCls 1 none, RTok.lit ['@'], RTok.cls domainCls 1 none,
   RTok.lit ['.'], RTok.cls isAsciiAlpha 2 none]

/-- The ten advanced obfuscation patterns of
CloudflareBypassEmailExtractor, in source order. -/
def advancedPatterns : List (List RTok) :=
  [ [RTok.cls localCls 1 none, RTok.cls isSpaceChar 0 none, RTok.lit ['@'],
     RTok.cls isSpaceChar 0 none, RTok.cls domainCls 1 none,
     RTok.cls isSpaceChar 0 none, RTok.lit ['.'], RTok.cls isSpaceChar 0 none,
     RTok.cls isAsciiAlpha 2 none],
    [RTok.cls localCls 1 none, RTok.lit "%40".toList, RTok.cls domainCls 1 none,
     RTok.lit ['.'], RTok.cls isAsciiAlpha 2 none],
    [RTok.cls localCls 1 none, RTok.lit "&#64;".toList, RTok.cls domainCls 1 none,
     RTok.lit ['.'], RTok.cls isAsciiAlpha 2 none],
    [RTok.cls localCls 1 none, RTok.cls isSpaceChar 0 none,
     RTok.alt2 "at".toList ['@'], RTok.cls isSpaceChar 0 none,
     RTok.cls domainCls 1 none, RTok.cls isSpaceChar 0 none,
     RTok.alt2 "dot".toList ['.'], RTok.cls isSpaceChar 0 none,
     RTok.cls domainCls 1 none],
    [RTok.lit "\"email\"".toList, RTok.cls isSpaceChar 0 none, RTok.lit [':'],
     RTok.cls isSpaceChar 0 none, RTok.lit ['"'],
     RTok.grp (fun c => c != '"') 1 none, RTok.lit ['"']],
    [RTok.lit "'email'".toList, RTok.cls isSpaceChar 0 none, RTok.lit [':'],
     RTok.cls isSpaceChar 0 none, RTok.lit ['\''],
     RTok.grp (fun c => c != '\'') 1 none, RTok.lit ['\'']],
    [RTok.lit "data-email=".toList, RTok.cls quoteCls 1 (some 1),
     RTok.grp (fun c => !quoteCls c) 1 none, RTok.cls quoteCls 1 (some 1)],
    [RTok.lit "data-contact=".toList, RTok.cls quoteCls 1 (some 1),
     RTok.grp (fun c => !quoteCls c) 1 none, RTok.cls quoteCls 1 (some 1)],
    [RTok.lit "data-mail=".toList, RTok.cls quoteCls 1 (some 1),
     RTok.grp (fun c => !quoteCls c) 1 none, RTok.cls quoteCls 1 (some 1)],
    [RTok.lit "content".toList, RTok.cls isSpaceChar 0 none, RTok.lit [':'],
     RTok.cls isSpaceChar 0 none, RTok.cls quoteCls 1 (some 1),
     RTok.grp (fun c => !quoteCls c) 1 none, RTok.cls quoteCls 1 (some 1)] ]

/-! Decoders used by the extractor. -/

/-- Numeric value of one decimal digit string. -/
def digitsVal (ds : Str) : Nat := ds.foldl (fun a c => a * 10 + (c.toNat - 48)) 0

/-- Models Python html.unescape on the entity forms relevant to the embedded
scripts: decimal numeric character references and the five basic named
entities. Other text is left unchanged. -/
def htmlUnescapeF : Nat → Str → Str
  | 0, s => s
  | _ + 1, [] => []
  | fuel + 1, c :: rest =>
    if c = '&' then
      if rest.head? = some '#' then
        let ds := (rest.drop 1).takeWhile isAsciiDigit
        let after := (rest.drop 1).drop ds.length
        if ds ≠ [] ∧ after.head? = some ';' then
          Char.ofNat (digitsVal ds) :: htmlUnescapeF fuel (after.drop 1)
        else '&' :: htmlUnescapeF fuel rest
      else if "amp;".toList.isPrefixOf rest then
        '&' :: htmlUnescapeF fuel (rest.drop 4)
      else if "lt;".toList.isPrefixOf rest then
        '<' :: htmlUnescapeF fuel (rest.drop 3)
      else if "gt;".toList.isPrefixOf rest then
        '>' :: htmlUnescapeF fuel (rest.drop 3)
      else if "quot;".toList.isPrefixOf rest then
        '"' :: htmlUnescapeF fuel (rest.drop 5)
      else if "apos;".toList.isPrefixOf rest then
        '\'' :: htmlUnescapeF fuel (rest.drop 5)
      else '&' :: htmlUnescapeF fuel rest
    else c :: htmlUnescapeF fuel rest

/-- Models Python html.unescape on the entity forms relevant to the embedded
scripts (see htmlUnescapeF): fuelled scan, every step consuming at least one
character. -/
def htmlUnescape (s : Str) : Str := htmlUnescapeF s.length s

/-- Hexadecimal value of a digit character, if it is one. -/
def hexVal? (c : Char) : Option Nat :=
  if isAsciiDigit c then some (c.toNat - 48)
  else if 'a' ≤ c && c ≤ 'f' then some (c.toNat - 87)
  else if 'A' ≤ c && c ≤ 'F' then some (c.toNat - 55)
  else none

/-- Models urllib.parse.unquote: every percent sign followed by two hex digits
is replaced by the character with that code (ASCII model of the byte
decoding). -/
def pyUnquote : Str → Str
  | [] => []
  | '%' :: a :: b :: rest =>
    match hexVal? a, hexVal? b with
    | some x, some y => Char.ofNat (16 * x + y) :: pyUnquote rest
    | _, _ => '%' :: pyUnquote (a :: b :: rest)
  | c :: rest => c :: pyUnquote rest

/-- Models codecs rot13 on one character. -/
def rot13Char (c : Char) : Char :=
  if isAsciiUpper c then Char.ofNat ((c.toNat - 65 + 13) % 26 + 65)
  else if isAsciiLower c then Char.ofNat ((c.toNat - 97 + 13) % 26 + 97)
  else c

/-- Models codecs.decode(s, "rot13"). -/
def rot13 (s : Str) : Str := s.map rot13Char

/-- Maximal runs of characters satisfying p with length at least n: findall of
the pattern repeating the class at least n times. -/
def classRunsF (p : Char → Bool) (n : Nat) : Nat → Str → List Str
  | 0, _ => []
  | _ + 1, [] => []
  | fuel + 1, c :: rest =>
    if p c then
      let k := maxRun p (c :: rest)
      if n ≤ k then
        ((c :: rest).take k) :: classRunsF p n fuel ((c :: rest).drop k)
      else classRunsF p n fuel ((c :: rest).drop k)
    else classRunsF p n fuel rest

/-- Maximal runs of characters satisfying p with length at least n: findall
of the pattern repeating the class at least n times (fuelled scan, every step
consuming at least one character). -/
def classRuns (p : Char → Bool) (n : Nat) (s : Str) : List Str :=
  classRunsF p n s.length s

/-- Models BASE64_REGEX.findall: maximal base64-alphabet runs of length at
least 32, each together with up to two trailing padding signs. -/
def b64FindsF : Nat → Str → List Str
  | 0, _ => []
  | _ + 1, [] => []
  | fuel + 1, c :: rest =>
    if b64Cls c then
      let k := maxRun b64Cls (c :: rest)
      if 32 ≤ k then
        let eqs := min 2 (maxRun (fun x => x == '=') ((c :: rest).drop k))
        ((c :: rest).take (k + eqs)) :: b64FindsF fuel ((c :: rest).drop (k + eqs))
      else b64FindsF fuel ((c :: rest).drop k)
    else b64FindsF fuel rest

/-- Models BASE64_REGEX.findall (see b64FindsF): fuelled scan, every step
consuming at least one character. -/
def b64Finds (s : Str) : List Str := b64FindsF s.length s

/-- Value of one base64 alphabet character. -/
def b64Val (c : Char) : Nat :=
  if isAsciiUpper c then c.toNat - 65
  else if isAsciiLower c then c.toNat - 71
  else if isAsciiDigit c then c.toNat + 4
  else if c == '+' then 62
  else if c == '/' then 63
  else 0

/-- Models base64.b64decode on a padded base64 string, producing bytes. -/
def b64DecodeBytes : Str → List Nat
  | a :: b :: c :: d :: rest =>
    let n := b64Val a * 262144 + b64Val b * 4096 + b64Val c * 64 + b64Val d
    let bytes := [n / 65536, (n / 256) % 256, n % 256]
    (if d = '=' then if c = '=' then bytes.take 1 else bytes.take 2 else bytes) ++
      b64DecodeBytes rest
  | _ => []

/-- Models bytes.decode("utf-8", errors="ignore"): decode well-formed UTF-8
sequences and silently skip bytes that do not start one. -/
def utf8DecodeIgnoreF : Nat → List Nat → Str
  | 0, _ => []
  | _ + 1, [] => []
  | fuel + 1, b :: rest =>
    if b < 128 then Char.ofNat b :: utf8DecodeIgnoreF fuel rest
    else if 194 ≤ b ∧ b ≤ 223 then
      match rest.head? with
      | some b2 =>
        if 128 ≤ b2 ∧ b2 ≤ 191 then
          Char.ofNat ((b - 192) * 64 + (b2 - 128)) ::
            utf8DecodeIgnoreF fuel (rest.drop 1)
        else utf8DecodeIgnoreF fuel rest
      | none => []
    else if 224 ≤ b ∧ b ≤ 239 then
      match rest.head?, (rest.drop 1).head? with
      | some b2, some b3 =>
        if (128 ≤ b2 ∧ b2 ≤ 191) ∧ (128 ≤ b3 ∧ b3 ≤ 191) then
          Char.ofNat ((b - 224) * 4096 + (b2 - 128) * 64 + (b3 - 128)) ::
            utf8DecodeIgnoreF fuel (rest.drop 2)
        else utf8DecodeIgnoreF fuel rest
      | _, _ => utf8DecodeIgnoreF fuel rest
    else utf8DecodeIgnoreF fuel rest

/-- Models bytes.decode("utf-8", errors="ignore") (see utf8DecodeIgnoreF):
fuelled scan, every step consuming at least one byte. -/
def utf8DecodeIgnore (bs : List Nat) : Str := utf8DecodeIgnoreF bs.length bs

/-! The cleaning and extraction pipeline of CloudflareBypassEmailExtractor. -/

/-- The punctuation characters stripped by _clean_email. -/
def stripPunct : Str := " \"'()[]\x7b\x7d<>".toList

/-- Models CloudflareBypassEmailExtractor._clean_email. -/
def clean_email (e : Str) : Str :=
  if e.isEmpty then [] else
  let e1 := htmlUnescape e
  let e2 := pyUnquote e1
  let e3 := replaceAll "&amp;".toList ['&'] e2
  let e4 := collapseAround '@' e3
  let e5 := collapseAround '.' e4
  let e6 := replaceAll " at ".toList ['@'] e5
  let e7 := replaceAll " dot ".toList ['.'] e6
  pyLower (pyStrip stripPunct e7)

/-- Full match against EMAIL_REGEX, the validation guard of the extractor. -/
def emailFullmatch (s : Str) : Bool := matchFull emailPat s

/-- Models CloudflareBypassEmailExtractor._extract_from_decoded. -/
def extract_from_decoded (t : Str) : List Str :=
  if t.isEmpty then [] else
  (findAllToks emailPat t).foldl (fun acc m =>
    let c := clean_email m
    if emailFullmatch c then setInsert acc c else acc) []

/-- Models CloudflareBypassEmailExtractor._extract_advanced_emails. -/
def extract_advanced_emails (content : Str) : List Str :=
  if content.isEmpty then [] else
  let working := htmlUnescape content
  let fromPats := advancedPatterns.foldl (fun acc pat =>
    (findAllToks pat working).foldl (fun acc2 m =>
      let c := clean_email m
      if emailFullmatch c then setInsert acc2 c else acc2) acc) []
  let withB64 := (b64Finds working).foldl (fun acc enc =>
    if enc.length % 4 ≠ 0 then acc
    else setUnionL acc
      (extract_from_decoded (utf8DecodeIgnore (b64DecodeBytes enc)))) fromPats
  let withRot := (classRuns rot13Cls 10 working).foldl (fun acc cand =>
    let d := rot13 cand
    if d ≠ [] ∧ d ≠ cand ∧ d.contains '@' then
      setUnionL acc (extract_from_decoded d)
    else acc) withB64
  let urlDecoded := pyUnquote working
  if urlDecoded ≠ working then setUnionL withRot (extract_from_decoded urlDecoded)
  else withRot

/-- Models CloudflareBypassEmailExtractor.extract_emails_from_text. -/
def extract_emails_from_text (t : Str) : List Str :=
  if t.isEmpty then [] else
  let direct := (findAllToks emailPat t).foldl (fun acc raw =>
    let c := clean_email raw
    if emailFullmatch c then setInsert acc c else acc) []
  setUnionL direct (extract_advanced_emails t)

/-! URL helpers, modelling the urllib.parse functions the scripts use. -/

/-- Index of the first occurrence of needle as a substring of the argument. -/
def idxOfSub? (needle : Str) : Str → Option Nat
  | [] => if needle.isEmpty then some 0 else none
  | c :: rest =>
    if needle.isPrefixOf (c :: rest) then some 0
    else (idxOfSub? needle rest).map (· + 1)

/-- The part of hay after the first occurrence of needle; hay itself when
needle does not occur. -/
def afterSub (needle hay : Str) : Str :=
  match idxOfSub? needle hay with
  | some i => hay.drop (i + needle.length)
  | none => hay

/-- Models urllib.parse.urlparse(url).hostname (with None mapped to the empty
string) for the URL shapes the scripts handle: the text between the scheme
separator and the next slash, question mark, hash sign or colon, lowercased;
empty when the URL has no network location. -/
def urlHostname (url : Str) : Str :=
  let netloc :=
    if containsSub url "://".toList then afterSub "://".toList url
    else if "//".toList.isPrefixOf url then url.drop 2
    else []
  pyLower (netloc.takeWhile
    (fun c => !(c == '/' || c == '?' || c == '#' || c == ':')))

/-- The scheme of a URL that contains the scheme separator. -/
def urlScheme (url : Str) : Str :=
  if containsSub url "://".toList then pyBeforeFirst ':' url else []

/-- The scheme and network location of a URL, up to but not including the
first slash after the scheme separator. -/
def urlSchemeHost (url : Str) : Str :=
  if containsSub url "://".toList then
    let rest := afterSub "://".toList url
    urlScheme url ++ "://".toList ++ rest.takeWhile (fun c => c != '/')
  else []

/-- The base URL up to and including the last slash of its path; used to
resolve relative references. -/
def urlUpToLastSlash (url : Str) : Str :=
  let pre := (url.reverse.dropWhile (fun c => c != '/')).reverse
  if "//".toList.isSuffixOf pre ∨ pre.isEmpty then url ++ ['/'] else pre

/-- Models urllib.parse.urljoin for the href shapes the scripts encounter: an
absolute URL (containing a scheme separator) is returned as is, a
protocol-relative href inherits the base scheme, a root-relative href
replaces the base path, and any other href replaces the last segment of the
base path. -/
def pyUrljoin (base href : Str) : Str :=
  if containsSub href "://".toList then href
  else if "//".toList.isPrefixOf href then urlScheme base ++ [':'] ++ href
  else if href.head? = some '/' then urlSchemeHost base ++ href
  else urlUpToLastSlash base ++ href

namespace DeepHarvester

/-- GENERIC_PROVIDERS of deep_email_harvester. -/
def GENERIC_PROVIDERS : List Str :=
  ["gmail.com", "yahoo.com", "hotmail.com", "outlook.com", "mail.ru",
   "yandex.ru", "ya.ru", "bk.ru", "inbox.ru"].map String.toList

/-- DISALLOWED_TLDS of deep_email_harvester. -/
def DISALLOWED_TLDS : List Str :=
  ["png", "gif", "jpg", "jpeg", "svg", "webp"].map String.toList

/-- CONTACT_KEYWORDS of deep_email_harvester (the source tuple lists kontakt
twice). -/
def CONTACT_KEYWORDS : List Str :=
  ["contact", "kontakt", "about", "company", "support", "team", "contacts",
   "kontakt"].map String.toList

/-- Models deep_email_harvester.same_host: the candidate hostname must end
with the base hostname, a suffix comparison rather than an equality test. -/
def same_host (base cand : Str) : Bool :=
  let host := urlHostname base
  let c := urlHostname cand
  (pyBeforeFirst ':' host).isSuffixOf c

/-- Loop of deep_email_harvester.discover_related over the anchor href list,
carrying the set of related URLs found so far. -/
def discover_related_go (base_url : Str) (limit : Nat) :
    List Str → List Str → List Str
  | [], related => related
  | href :: rest, related =>
    let h := pyStripWs href
    if h.isEmpty || "mailto:".toList.isPrefixOf h ||
        "javascript:".toList.isPrefixOf h || ['#'].isPrefixOf h then
      discover_related_go base_url limit rest related
    else
      let dest := pyUrljoin base_url h
      if ¬ same_host base_url dest then
        discover_related_go base_url limit rest related
      else
        let related2 :=
          if CONTACT_KEYWORDS.any (fun kw => containsSub (pyLower h) kw) then
            setInsert related dest
          else related
        if limit ≤ related2.length then related2
        else discover_related_go base_url limit rest related2

/-- Models deep_email_harvester.discover_related with the HTML parser
abstracted: anchors is the list of href attributes of the page's anchor tags,
in document order. -/
def discover_related (base_url : Str) (anchors : List Str)
    (limit : Nat := 4) : List Str :=
  discover_related_go base_url limit anchors []

/-- Models deep_email_harvester.extract_emails. -/
def extract_emails (text : Str) : List Str :=
  if text.isEmpty then [] else
  (findAllToks emailPat text).foldl
    (fun acc m => setInsert acc (pyLower (pyStripWs m))) []

/-- Models deep_email_harvester.filter_email. -/
def filter_email (email : Str) (required exclude : List Str) : Bool :=
  let domain := pyLower (pyAfterFirst '@' email)
  if GENERIC_PROVIDERS.contains domain then false
  else if ¬ domain.contains '.' then false
  else
    let tld := pyAfterLast '.' domain
    if DISALLOWED_TLDS.contains tld then false
    else if exclude.any (fun substr => containsSub email substr) then false
    else if ¬ required.isEmpty then
      required.any (fun token => containsSub domain token)
    else true

end DeepHarvester

namespace MultiEngine

/-- SUPPORTED_ENGINES of multi_engine_harvester. -/
def SUPPORTED_ENGINES : List Str :=
  ["google", "bing", "yahoo", "yandex", "duckduckgo"].map String.toList

/-- CONTACT_KEYWORDS of multi_engine_harvester. -/
def CONTACT_KEYWORDS : List Str :=
  ["contact", "kontakt", "about", "team", "company", "support", "services",
   "locations", "branches", "offices", "directions"].map String.toList

/-- SOCIAL_DOMAINS of multi_engine_harvester. -/
def SOCIAL_DOMAINS : List Str :=
  ["facebook.com", "m.facebook.com", "twitter.com", "x.com", "instagram.com",
   "linkedin.com", "youtube.com", "tiktok.com", "wa.me",
   "api.whatsapp.com"].map String.toList

/-- GENERIC_PROVIDERS of multi_engine_harvester. -/
def GENERIC_PROVIDERS : List Str :=
  ["gmail.com", "yahoo.com", "hotmail.com", "outlook.com", "icloud.com",
   "mail.ru", "yandex.ru", "ya.ru", "bk.ru", "inbox.ru"].map String.toList

/-- EXCLUDED_DOMAINS of multi_engine_harvester. -/
def EXCLUDED_DOMAINS : List Str :=
  ["wixpress.com", "sentry.io", "mysite.com", "hubspot.com", "mailchimp.com",
   "zoho.com", "zohomail.com", "medium.com", "wordpress.com",
   "googleusercontent.com", "amazonaws.com"].map String.toList

/-- AVIATION_KEYWORDS of multi_engine_harvester. -/
def AVIATION_KEYWORDS : List Str :=
  ["air", "avia", "airline", "airlines", "airways", "airport", "aircraft",
   "jet", "jets", "charter", "charters", "flight", "flights", "aero", "ops",
   "heli", "helicopter", "cargo", "fleet", "crew", "dispatch", "ground",
   "hangar", "handling", "dnata", "emirates", "etihad", "flydubai", "jetex",
   "aeroflot", "rossiya"].map String.toList

/-- TRUSTED_LOCAL_PARTS of multi_engine_harvester. -/
def TRUSTED_LOCAL_PARTS : List Str :=
  ["info", "sales", "ops", "charter", "booking", "reservations", "dispatch",
   "support", "cargo", "handling"].map String.toList

/-- REGIONAL_TLDS of multi_engine_harvester. -/
def REGIONAL_TLDS : List Str :=
  ["ru", "su", "ae", "qa", "sa", "bh", "kw", "om", "aero", "za", "zm", "zw",
   "ng", "gh", "ke", "ug", "tz", "et", "er", "dj", "sd", "ss", "eg", "ly",
   "tn", "ma", "dz", "ao", "na", "bw", "mz", "mw", "mg", "ga", "cm", "cg",
   "cd", "cf", "td", "ne", "ml", "bf", "ci", "gn", "gw", "gm", "sl", "lr",
   "bj", "tg", "sn", "mr", "st", "gq", "cv", "sc", "mu", "km", "sz", "ls",
   "bi", "so"].map String.toList

/-- Models multi_engine_harvester.hostname_for. The hostname is already
lowercased by urlparse; the source lowercases it once more. -/
def hostname_for (url : Str) : Str := pyLower (urlHostname url)

/-- Models MultiEngineHarvester.should_skip_url. -/
def should_skip_url (url : Str) : Bool :=
  let host := hostname_for url
  if host.isEmpty then true
  else if SOCIAL_DOMAINS.any (fun d => d.isSuffixOf host) then true
  else if EXCLUDED_DOMAINS.any (fun d => d.isSuffixOf host) then true
  else false

/-- Models MultiEngineHarvester.is_aviation_email. -/
def is_aviation_email (email : Str) : Bool :=
  let email_lower := pyLower email
  if ¬ email_lower.contains '@' then false
  else
    let local_part := pyBeforeFirst '@' email_lower
    let domain := pyAfterFirst '@' email_lower
    if GENERIC_PROVIDERS.contains domain then false
    else if ".gov".toList.isSuffixOf domain || ".edu".toList.isSuffixOf domain
    then false
    else if EXCLUDED_DOMAINS.any (fun ex => ex.isSuffixOf domain) then false
    else
      let keyword_hit := AVIATION_KEYWORDS.any (fun t => containsSub email_lower t)
      let trusted_local := TRUSTED_LOCAL_PARTS.any (fun p => p.isPrefixOf local_part)
      let tld := pyAfterLast '.' domain
      let regional_tld :=
        REGIONAL_TLDS.contains tld || ".aero".toList.isSuffixOf domain
      if ".com".toList.isSuffixOf domain ∧
          ¬ (keyword_hit || trusted_local || regional_tld) then false
      else keyword_hit || trusted_local || regional_tld

/-- Loop of MultiEngineHarvester.discover_related over the anchor href list.
Unlike the deep harvester this accumulates a plain list without
deduplication, requires exact hostname equality, and also drops destinations
that should_skip_url rejects. -/
def discover_related_go (base_url : Str) (limit : Nat) :
    List Str → List Str → List Str
  | [], related => related
  | href :: rest, related =>
    let h := pyStripWs href
    if h.isEmpty || "mailto:".toList.isPrefixOf h ||
        "javascript:".toList.isPrefixOf h || ['#'].isPrefixOf h then
      discover_related_go base_url limit rest related
    else
      let dest := pyUrljoin base_url h
      let dest_host := hostname_for dest
      if dest_host.isEmpty || dest_host ≠ hostname_for base_url then
        discover_related_go base_url limit rest related
      else if should_skip_url dest then
        discover_related_go base_url limit rest related
      else
        let related2 :=
          if CONTACT_KEYWORDS.any (fun kw => containsSub (pyLower h) kw) then
            related ++ [dest]
          else related
        if limit ≤ related2.length then related2
        else discover_related_go base_url limit rest related2

/-- Models MultiEngineHarvester.discover_related with the HTML parser
abstracted: anchors is the list of href attributes of the page's anchor tags,
in document order. -/
def discover_related (base_url : Str) (anchors : List Str)
    (limit : Nat := 4) : List Str :=
  discover_related_go base_url limit anchors []

/-- Models MultiEngineHarvester.extract_emails_from_html. -/
def extract_emails_from_html (html : Str) : List Str :=
  (findAllToks emailPat html).foldl (fun acc m =>
    let e := pyLower m
    if is_aviation_email e then setInsert acc e else acc) []

/-- Models MultiEngineHarvester.fetch_html over an abstract transport. web
maps a URL to its page text when the request succeeds with an HTML content
type, none otherwise. Returns the page text (empty on every failure path)
and the updated shared visited set. -/
def fetch_html (web : Str → Option Str) (visited_urls : List Str) (url : Str) :
    Str × List Str :=
  if visited_urls.contains url || should_skip_url url then ([], visited_urls)
  else
    match web url with
    | none => ([], visited_urls)
    | some html => (html, visited_urls ++ [url])

/-- Loop of MultiEngineHarvester.extract_emails_from_url, fuelled. State:
queue, per-session seen set, shared visited set, collected emails, and the
trace of URLs passed to fetch_html in order. Returns the final collected
emails, the fetch trace, and the shared visited set. -/
def extract_emails_from_url_go (web : Str → Option Str)
    (anchorsOf : Str → List Str) (url : Str) :
    Nat → List Str → List Str → List Str → List Str → List Str →
    List Str × List Str × List Str
  | 0, _, _, vis, emails, trace => (emails, trace, vis)
  | fuel + 1, queue, seen, vis, emails, trace =>
    if queue.isEmpty ∨ ¬ seen.length < 6 then (emails, trace, vis)
    else
      match queue with
      | [] => (emails, trace, vis)
      | current :: qrest =>
        if seen.contains current || should_skip_url current then
          extract_emails_from_url_go web anchorsOf url fuel qrest seen vis
            emails trace
        else
          let seen2 := seen ++ [current]
          let trace2 := trace ++ [current]
          let res := fetch_html web vis current
          if res.1.isEmpty then
            extract_emails_from_url_go web anchorsOf url fuel qrest seen2
              res.2 emails trace2
          else
            let emails2 := setUnionL emails (extract_emails_from_html res.1)
            let queue2 :=
              if current = url then
                qrest ++ (discover_related current (anchorsOf res.1)).filter
                  (fun l => ¬ seen2.contains l)
              else qrest
            extract_emails_from_url_go web anchorsOf url fuel queue2 seen2
              res.2 emails2 trace2

/-- Models MultiEngineHarvester.extract_emails_from_url: one crawl session
starting at url, returning the collected emails and the fetch trace. -/
def extract_emails_from_url (web : Str → Option Str)
    (anchorsOf : Str → List Str) (fuel : Nat) (url : Str) :
    List Str × List Str × List Str :=
  extract_emails_from_url_go web anchorsOf url fuel [url] [] [] [] []

/-- Engine-list normalization in MultiEngineHarvester.__init__: unsupported
engine names are dropped silently, and if none remain the default engine
list is used. -/
def init_engines (engines : List Str) : List Str :=
  let es := engines.filter (fun e => SUPPORTED_ENGINES.contains e)
  if es.isEmpty then ["google", "bing", "yahoo", "yandex"].map String.toList
  else es

end MultiEngine

namespace DeepHarvester

/-- Loop of deep_email_harvester.harvest_emails, fuelled. State: queue,
visited set, collected emails, and the trace of URLs passed to fetch in
order. web maps a URL to the fetched page text (empty on failure) and
anchorsOf maps page text to the href attributes of its anchors. -/
def harvest_emails_go (web : Str → Str) (anchorsOf : Str → List Str)
    (max_pages : Nat) :
    Nat → List Str → List Str → List Str → List Str → List Str × List Str
  | 0, _, _, collected, trace => (collected, trace)
  | fuel + 1, queue, visited, collected, trace =>
    if queue.isEmpty ∨ ¬ visited.length < max_pages then (collected, trace)
    else
      match queue with
      | [] => (collected, trace)
      | current :: qrest =>
        if visited.contains current then
          harvest_emails_go web anchorsOf max_pages fuel qrest visited
            collected trace
        else
          let visited2 := visited ++ [current]
          let trace2 := trace ++ [current]
          let html := web current
          if html.isEmpty then
            harvest_emails_go web anchorsOf max_pages fuel qrest visited2
              collected trace2
          else
            let collected2 := setUnionL collected (extract_emails html)
            let queue2 :=
              if visited2.length = 1 then
                qrest ++ (discover_related current (anchorsOf html)).filter
                  (fun l => ¬ visited2.contains l)
              else qrest
            harvest_emails_go web anchorsOf max_pages fuel queue2 visited2
              collected2 trace2

/-- Models deep_email_harvester.harvest_emails: one crawl session starting at
url, returning the collected emails and the fetch trace. -/
def harvest_emails (web : Str → Str) (anchorsOf : Str → List Str)
    (fuel : Nat) (url : Str) (max_pages : Nat) : List Str × List Str :=
  harvest_emails_go web anchorsOf max_pages fuel [url] [] [] []

end DeepHarvester

/-! Aggregation: the output-row loops of the two harvesters' main
functions. -/

/-- One output record, the CSV row of the harvesters. -/
structure Row where
  query : Str
  title : Str
  email : Str
  sourceURL : Str
deriving DecidableEq, Repr

/-- Generic first-wins deduplication of rows by email, carrying the set of
already-seen addresses: the inner loop of deep_email_harvester.main. -/
def dfGo (seen : List Str) : List Row → List Row
  | [] => []
  | r :: rest =>
    if seen.contains r.email then dfGo seen rest
    else r :: dfGo (r.email :: seen) rest

/-- The seen-address set after running dfGo. -/
def dfSeen (seen : List Str) : List Row → List Str
  | [] => seen
  | r :: rest =>
    if seen.contains r.email then dfSeen seen rest
    else dfSeen (r.email :: seen) rest

namespace DeepHarvester

/-- One SERP result ready for aggregation: the query, the result title, the
result URL, and the filtered emails harvested from it in iteration order. -/
structure ItemResult where
  query : Str
  title : Str
  url : Str
  emails : List Str
deriving DecidableEq, Repr

/-- The row built for one accepted email in deep_email_harvester.main. -/
def mkRow (q t u e : Str) : Row := ⟨q, t, e, u⟩

/-- Inner loop of deep_email_harvester.main over one result's email list:
emails already seen globally are skipped, fresh ones are appended as rows and
marked seen. Returns the new rows and the updated seen set. -/
def aggregate_emails (q t u : Str) : List Str → List Str → List Row × List Str
  | [], seen => ([], seen)
  | e :: es, seen =>
    if seen.contains e then aggregate_emails q t u es seen
    else
      let r := aggregate_emails q t u es (e :: seen)
      (mkRow q t u e :: r.1, r.2)

/-- Outer loop of deep_email_harvester.main over SERP results: results whose
URL was already seen are skipped entirely; fresh ones contribute their rows.
Returns the accumulated rows. -/
def aggregate_go : List Str → List Str → List ItemResult → List Row
  | _, _, [] => []
  | seenUrls, seenEmails, item :: rest =>
    if seenUrls.contains item.url then aggregate_go seenUrls seenEmails rest
    else
      let r := aggregate_emails item.query item.title item.url item.emails
        seenEmails
      r.1 ++ aggregate_go (item.url :: seenUrls) r.2 rest

/-- Models the aggregation of deep_email_harvester.main: the global
first-wins deduplication of rows by email across all queries and SERP
results. -/
def aggregate (items : List ItemResult) : List Row := aggregate_go [] [] items

end DeepHarvester

/-- Strict lexicographic order on character lists, models Python string
comparison by code point. -/
def lexLt : Str → Str → Bool
  | [], [] => false
  | [], _ :: _ => true
  | _ :: _, [] => false
  | a :: as, b :: bs => if a < b then true else if b < a then false else lexLt as bs

/-- Insert into a list sorted by le. -/
def sortedInsert (le : Str → Str → Bool) (a : Str) : List Str → List Str
  | [] => [a]
  | b :: rest => if le a b then a :: b :: rest else b :: sortedInsert le a rest

/-- Insertion sort by le, models Python sorted on a list of strings. -/
def insertionSort (le : Str → Str → Bool) : List Str → List Str
  | [] => []
  | a :: rest => sortedInsert le a (insertionSort le rest)

/-- Insertion-ordered deduplication, models iterating a Python set built by
successive additions. -/
def pyDedup (l : List Str) : List Str := l.foldl setInsert []

namespace MultiEngine

/-- Models the combined-output loop of multi_engine_harvester.main: one row
per address of the deduplicated global set, in sorted order, with constant
provenance fields. -/
def main_rows (all_emails : List Str) : List Row :=
  (insertionSort lexLt (pyDedup all_emails)).map (fun e =>
    ⟨"multi_engine".toList, "Multi-engine harvest".toList, e,
     "multi_engine_search".toList⟩)

end MultiEngine

namespace DeepHarvester

/-- Models deep_email_harvester.collect_queries: inline queries plus the
stripped non-comment lines of the queries file, deduplicated and sorted. -/
def collect_queries (inline fileLines : List Str) : List Str :=
  let fromFile := (fileLines.filter (fun l =>
    !(pyStripWs l).isEmpty && !(['#'].isPrefixOf l))).map pyStripWs
  insertionSort lexLt (pyDedup (inline ++ fromFile))

/-- Startup guard of deep_email_harvester.main: with an empty collected query
list the run prints a message and exits with status 1 before any search or
fetch; otherwise the harvesting, abstracted as run, proceeds on the queries.
Returns the exit-relevant status and the produced rows. -/
def main_guard (inline fileLines : List Str) (run : List Str → List Row) :
    Nat × List Row :=
  let queries := collect_queries inline fileLines
  if queries.isEmpty then (1, []) else (0, run queries)

end DeepHarvester

/-! Helper lemmas. -/

theorem toNat_charOfNat (n : Nat) (hv : n.isValidChar) :
    (Char.ofNat n).toNat = n := by
  simp only [Char.ofNat, hv, dif_pos]
  rfl

theorem isAsciiUpper_iff (c : Char) :
    isAsciiUpper c = true ↔ 65 ≤ c.toNat ∧ c.toNat ≤ 90 := by
  unfold isAsciiUpper
  simp only [Bool.and_eq_true, decide_eq_true_eq]
  rw [Char.le_def, Char.le_def]
  exact Iff.rfl

theorem lowerChar_idem (c : Char) : lowerChar (lowerChar c) = lowerChar c := by
  unfold lowerChar
  by_cases h : isAsciiUpper c = true
  · rw [if_pos h]
    have h1 := (isAsciiUpper_iff c).mp h
    have hv : (c.toNat + 32).isValidChar := Or.inl (by omega)
    have hno : ¬ isAsciiUpper (Char.ofNat (c.toNat + 32)) = true := by
      rw [isAsciiUpper_iff, toNat_charOfNat _ hv]
      omega
    rw [if_neg hno]
  · rw [if_neg h, if_neg h]

theorem pyLower_idem (s : Str) : pyLower (pyLower s) = pyLower s := by
  induction s with
  | nil => rfl
  | cons c rest ih =>
    simp only [pyLower, List.map_cons, List.map_map] at ih ⊢
    rw [lowerChar_idem]
    simpa [pyLower] using ih

theorem clean_email_lower_fixed (e : Str) :
    pyLower (clean_email e) = clean_email e := by
  by_cases h : e.isEmpty
  · simp [clean_email, h, pyLower]
  · simp only [clean_email, h, Bool.false_eq_true, if_false]
    exact pyLower_idem _

theorem mem_setInsert {s : List Str} {a x : Str} (h : x ∈ setInsert s a) :
    x ∈ s ∨ x = a := by
  unfold setInsert at h
  split at h
  · exact Or.inl h
  · rcases List.mem_append.mp h with h1 | h1
    · exact Or.inl h1
    · exact Or.inr (List.mem_singleton.mp h1)

theorem mem_setUnionL :
    ∀ {t s : List Str} {x : Str}, x ∈ setUnionL s t → x ∈ s ∨ x ∈ t := by
  intro t
  induction t with
  | nil => intro s x h; exact Or.inl h
  | cons b rest ih =>
    intro s x h
    have h' : x ∈ setUnionL (setInsert s b) rest := h
    rcases ih h' with h1 | h1
    · rcases mem_setInsert h1 with h2 | h2
      · exact Or.inl h2
      · exact Or.inr (by simp [h2])
    · exact Or.inr (List.mem_cons_of_mem _ h1)

/-- Folds whose step keeps every old element and only adds elements
satisfying P produce only old elements and elements satisfying P. -/
theorem mem_foldl_imp {β : Type} {P : Str → Prop} {step : List Str → β → List Str}
    (hstep : ∀ acc b x, x ∈ step acc b → x ∈ acc ∨ P x) :
    ∀ (l : List β) (init : List Str) (x : Str),
      x ∈ l.foldl step init → x ∈ init ∨ P x := by
  intro l
  induction l with
  | nil => intro init x hx; exact Or.inl hx
  | cons b rest ih =>
    intro init x hx
    rcases ih (step init b) x hx with h | h
    · exact hstep init b x h
    · exact Or.inr h

/-- The validation property every emitted candidate satisfies: a full match
of the canonical email regex and lowercase fixity. -/
def ValidatedLower (x : Str) : Prop :=
  emailFullmatch x = true ∧ pyLower x = x

theorem mem_cleanFold {l : List Str} {init : List Str} {x : Str}
    (hx : x ∈ l.foldl (fun acc m =>
      let c := clean_email m
      if emailFullmatch c then setInsert acc c else acc) init) :
    x ∈ init ∨ ValidatedLower x := by
  refine mem_foldl_imp ?_ l init x hx
  intro acc m y hy
  dsimp only at hy
  split at hy
  · rcases mem_setInsert hy with h | h
    · exact Or.inl h
    · subst h
      exact Or.inr ⟨by assumption, clean_email_lower_fixed m⟩
  · exact Or.inl hy

theorem mem_extract_from_decoded {t x : Str}
    (hx : x ∈ extract_from_decoded t) : ValidatedLower x := by
  unfold extract_from_decoded at hx
  split at hx
  · simp at hx
  · rcases mem_cleanFold hx with h | h
    · simp at h
    · exact h

theorem mem_patsFold (w : Str) {x : Str}
    (hx : x ∈ advancedPatterns.foldl (fun acc pat =>
      (findAllToks pat w).foldl (fun acc2 m =>
        let c := clean_email m
        if emailFullmatch c then setInsert acc2 c else acc2) acc) []) :
    ValidatedLower x := by
  rcases mem_foldl_imp (P := ValidatedLower)
    (fun acc pat z hz => mem_cleanFold hz) advancedPatterns [] x hx with h | h
  · simp at h
  · exact h

theorem mem_b64Fold (w : Str) {init : List Str} {x : Str}
    (hinit : ∀ y ∈ init, ValidatedLower y)
    (hx : x ∈ (b64Finds w).foldl (fun acc enc =>
      if enc.length % 4 ≠ 0 then acc
      else setUnionL acc
        (extract_from_decoded (utf8DecodeIgnore (b64DecodeBytes enc)))) init) :
    ValidatedLower x := by
  rcases mem_foldl_imp (P := ValidatedLower)
    (fun acc enc z hz => by
      split at hz
      · exact Or.inl hz
      · rcases mem_setUnionL hz with h | h
        · exact Or.inl h
        · exact Or.inr (mem_extract_from_decoded h))
    (b64Finds w) init x hx with h | h
  · exact hinit x h
  · exact h

theorem mem_rotFold (w : Str) {init : List Str} {x : Str}
    (hinit : ∀ y ∈ init, ValidatedLower y)
    (hx : x ∈ (classRuns rot13Cls 10 w).foldl (fun acc cand =>
      let d := rot13 cand
      if d ≠ [] ∧ d ≠ cand ∧ d.contains '@' then
        setUnionL acc (extract_from_decoded d)
      else acc) init) :
    ValidatedLower x := by
  rcases mem_foldl_imp (P := ValidatedLower)
    (fun acc cand z hz => by
      dsimp only at hz
      split at hz
      · rcases mem_setUnionL hz with h | h
        · exact Or.inl h
        · exact Or.inr (mem_extract_from_decoded h)
      · exact Or.inl hz)
    (classRuns rot13Cls 10 w) init x hx with h | h
  · exact hinit x h
  · exact h

theorem mem_extract_advanced {t x : Str}
    (hx : x ∈ extract_advanced_emails t) : ValidatedLower x := by
  unfold extract_advanced_emails at hx
  split at hx
  · simp at hx
  · simp only [] at hx
    split at hx
    · rcases mem_setUnionL hx with h | h
      · exact mem_rotFold (htmlUnescape t)
          (fun y hy => mem_b64Fold (htmlUnescape t)
            (fun z hz => mem_patsFold (htmlUnescape t) hz) hy) h
      · exact mem_extract_from_decoded h
    · exact mem_rotFold (htmlUnescape t)
        (fun y hy => mem_b64Fold (htmlUnescape t)
          (fun z hz => mem_patsFold (htmlUnescape t) hz) hy) hx

/-- C8. Every candidate the Signal Extractor returns fully matches the
canonical email grammar (local part, at sign, dotted domain, TLD of at least
two letters) and is lowercase: any raw match whose cleaned form does not
fully match the grammar is discarded before insertion, so no candidate
bypasses validation. -/
theorem extract_emails_from_text_validated (t x : Str)
    (hx : x ∈ extract_emails_from_text t) :
    emailFullmatch x = true ∧ pyLower x = x := by
  unfold extract_emails_from_text at hx
  split at hx
  · simp at hx
  · rcases mem_setUnionL hx with h | h
    · rcases mem_cleanFold h with h1 | h1
      · simp at h1
      · exact h1
    · exact mem_extract_advanced h

/-- Witness for C8 at a concrete page text and candidate. -/
theorem extract_emails_from_text_validated_witness :
    emailFullmatch "foo@bar.com".toList = true ∧
      pyLower "foo@bar.com".toList = "foo@bar.com".toList :=
  extract_emails_from_text_validated "<a href=\"mailto:foo@bar.com\">".toList
    "foo@bar.com".toList (by decide)

/-- C4 counterexample. On the page text containing the HTML-entity form, the
extractor does not yield the single candidate foo@bar.com: the rot13
best-effort sweep also emits the artifact sbb@one.pbz, because the whole
text is one run of the rot13 candidate class whose decoding contains an at
sign. -/
theorem extract_entity_form_not_single :
    "sbb@one.pbz".toList ∈ extract_emails_from_text "foo&#64;bar.com".toList ∧
      "sbb@one.pbz".toList ≠ "foo@bar.com".toList := by
  constructor
  · decide
  · decide

/-- C4 amended. Feeding the Signal Extractor each obfuscated form yields the
normalized candidate foo@bar.com; for the spaced form and the
percent-encoded form it is the single candidate, while the HTML-entity form
and the mailto form additionally yield the rot13 artifact sbb@one.pbz. -/
theorem extract_roundtrip_forms :
    extract_emails_from_text "  FOO  @  BAR . COM  ".toList =
      ["foo@bar.com".toList] ∧
    extract_emails_from_text "foo%40bar.com".toList = ["foo@bar.com".toList] ∧
    extract_emails_from_text "foo&#64;bar.com".toList =
      ["foo@bar.com".toList, "sbb@one.pbz".toList] ∧
    extract_emails_from_text "<a href=\"mailto:foo@bar.com\">".toList =
      ["foo@bar.com".toList, "sbb@one.pbz".toList] := by
  refine ⟨by decide, by decide, by decide, by decide⟩

/-- C6. An email whose domain (the lowercased part after the first at sign)
is one of the generic consumer-mail providers is rejected by both relevance
filters regardless of any other positive signal: the generic-provider check
is the first rule evaluated, before trusted local parts, keywords and
regional TLDs. -/
theorem generic_provider_always_rejected (e : Str)
    (hm : MultiEngine.GENERIC_PROVIDERS.contains
      (pyAfterFirst '@' (pyLower e)) = true)
    (hd : DeepHarvester.GENERIC_PROVIDERS.contains
      (pyLower (pyAfterFirst '@' e)) = true) :
    MultiEngine.is_aviation_email e = false ∧
      ∀ required exclude, DeepHarvester.filter_email e required exclude = false := by
  constructor
  · unfold MultiEngine.is_aviation_email
    simp only [hm]
    split
    · rfl
    · simp
  · intro required exclude
    unfold DeepHarvester.filter_email
    simp only [hd]
    rfl

/-- Witness for C6 at the spec's example candidate ops@gmail.com: rejected
even though ops is a trusted local part. -/
theorem generic_provider_always_rejected_witness :
    MultiEngine.is_aviation_email "ops@gmail.com".toList = false ∧
      ∀ required exclude,
        DeepHarvester.filter_email "ops@gmail.com".toList required exclude
          = false :=
  generic_provider_always_rejected "ops@gmail.com".toList (by decide) (by decide)

/-- C10. The multi-engine relevance filter rejects every email whose domain
ends with .gov or .edu, before any positive signal (trusted local part,
keyword, regional TLD) is considered. -/
theorem gov_edu_always_rejected (e : Str)
    (h : (".gov".toList.isSuffixOf (pyAfterFirst '@' (pyLower e)) ||
      ".edu".toList.isSuffixOf (pyAfterFirst '@' (pyLower e))) = true) :
    MultiEngine.is_aviation_email e = false := by
  unfold MultiEngine.is_aviation_email
  simp only [h]
  split
  · rfl
  · split
    · rfl
    · simp

/-- Witness for C10 at ops@faa.gov: rejected although ops is a trusted local
part. -/
theorem gov_edu_always_rejected_witness :
    MultiEngine.is_aviation_email "ops@faa.gov".toList = false :=
  gov_edu_always_rejected "ops@faa.gov".toList (by decide)

/-- C7 counterexample. With an empty required-substring list, the deep
harvester's filter accepts an email that reaches the fallback with no reject
hit and no positive signal, where the claim says the fallback rejects. -/
theorem empty_required_accepts :
    DeepHarvester.filter_email "foo@bar.com".toList [] [] = true := by decide

/-- C7 amended. When the required-substring list is non-empty, an email is
rejected unless its domain contains one of the substrings. When it is empty,
the deep harvester's filter accepts any email that passes the reject rules
(an empty list imposes no constraint, there is no default reject), while the
multi-engine filter rejects an email carrying no positive signal. -/
theorem required_substrings_fallback :
    (∀ e required exclude, required ≠ [] →
      required.any (fun token =>
        containsSub (pyLower (pyAfterFirst '@' e)) token) = false →
      DeepHarvester.filter_email e required exclude = false) ∧
    (∀ e exclude,
      DeepHarvester.GENERIC_PROVIDERS.contains
        (pyLower (pyAfterFirst '@' e)) = false →
      (pyLower (pyAfterFirst '@' e)).contains '.' = true →
      DeepHarvester.DISALLOWED_TLDS.contains
        (pyAfterLast '.' (pyLower (pyAfterFirst '@' e))) = false →
      exclude.any (fun substr => containsSub e substr) = false →
      DeepHarvester.filter_email e [] exclude = true) ∧
    (∀ e,
      MultiEngine.AVIATION_KEYWORDS.any
        (fun t => containsSub (pyLower e) t) = false →
      MultiEngine.TRUSTED_LOCAL_PARTS.any
        (fun p => p.isPrefixOf (pyBeforeFirst '@' (pyLower e))) = false →
      (MultiEngine.REGIONAL_TLDS.contains
          (pyAfterLast '.' (pyAfterFirst '@' (pyLower e))) ||
        ".aero".toList.isSuffixOf (pyAfterFirst '@' (pyLower e))) = false →
      MultiEngine.is_aviation_email e = false) := by
  refine ⟨?_, ?_, ?_⟩
  · intro e required exclude hne hno
    have h1 : required.isEmpty = false := by simp [List.isEmpty_iff, hne]
    simp [DeepHarvester.filter_email, h1, hno]
  · intro e exclude hgen hdot htld hexc
    simp at hgen hdot htld hexc
    simp [DeepHarvester.filter_email, hgen, hdot, htld]
    try exact hexc
  · intro e hkw htl hreg
    simp at hkw htl hreg
    simp [MultiEngine.is_aviation_email, hkw, htl, hreg]
    try exact fun _ _ _ _ _ _ => ⟨hkw, htl⟩

/-- Witness for C7 amended, instantiating each conjunct at a concrete
input. -/
theorem required_substrings_fallback_witness :
    DeepHarvester.filter_email "foo@bar.com".toList ["avia".toList] [] = false ∧
    DeepHarvester.filter_email "foo@bar.com".toList [] [] = true ∧
    MultiEngine.is_aviation_email "nobody@qqq.xyz".toList = false :=
  ⟨required_substrings_fallback.1 "foo@bar.com".toList ["avia".toList] []
      (by decide) (by decide),
   required_substrings_fallback.2.1 "foo@bar.com".toList [] (by decide)
      (by decide) (by decide) (by decide),
   required_substrings_fallback.2.2 "nobody@qqq.xyz".toList (by decide)
      (by decide) (by decide)⟩

/-- C9 counterexample. An unsupported engine name is not fatal at startup:
the constructor silently drops it and, the filtered list being empty, falls
back to the default engine list, so the run starts. -/
theorem unsupported_engine_not_fatal :
    MultiEngine.init_engines ["notanengine".toList] =
      ["google", "bing", "yahoo", "yandex"].map String.toList ∧
    MultiEngine.init_engines ["notanengine".toList] ≠ [] := by
  constructor
  · decide
  · decide

/-- C9 amended. An empty collected query list is fatal at startup in the deep
harvester: the run exits with status 1 and the harvesting continuation is
never invoked. Unsupported engine names, however, are silently dropped; when
none remain the default engine list is used, and the resulting engine list is
never empty, so the run always starts. -/
theorem config_error_handling :
    (∀ inline fileLines run,
      DeepHarvester.collect_queries inline fileLines = [] →
      DeepHarvester.main_guard inline fileLines run = (1, [])) ∧
    (∀ engines, (∀ e ∈ engines,
        MultiEngine.SUPPORTED_ENGINES.contains e = false) →
      MultiEngine.init_engines engines =
        ["google", "bing", "yahoo", "yandex"].map String.toList) ∧
    (∀ engines, MultiEngine.init_engines engines ≠ []) := by
  refine ⟨?_, ?_, ?_⟩
  · intro inline fileLines run hq
    simp [DeepHarvester.main_guard, hq]
  · intro engines h
    have hfil : engines.filter
        (fun e => MultiEngine.SUPPORTED_ENGINES.contains e) = [] :=
      List.filter_eq_nil_iff.mpr (fun a ha => by simpa using h a ha)
    unfold MultiEngine.init_engines
    rw [hfil]
    rfl
  · intro engines
    by_cases hc : (engines.filter
        (fun e => MultiEngine.SUPPORTED_ENGINES.contains e)).isEmpty = true
    · simp only [MultiEngine.init_engines]
      rw [if_pos hc]
      decide
    · simp only [MultiEngine.init_engines]
      rw [if_neg hc]
      simpa [List.isEmpty_iff] using hc

/-- Witness for C9 amended at concrete configurations. -/
theorem config_error_handling_witness :
    DeepHarvester.main_guard [] [] (fun _ => []) = (1, []) ∧
    MultiEngine.init_engines ["notanengine2".toList] =
      ["google", "bing", "yahoo", "yandex"].map String.toList ∧
    MultiEngine.init_engines [] ≠ [] :=
  ⟨config_error_handling.1 [] [] (fun _ => []) (by decide),
   config_error_handling.2.1 ["notanengine2".toList] (by decide),
   config_error_handling.2.2 []⟩

/-- Inserting into the set representation grows the length by at most one. -/
theorem length_setInsert (s : List Str) (a : Str) :
    (setInsert s a).length ≤ s.length + 1 := by
  unfold setInsert
  split
  · omega
  · simp

/-- The deep link discoverer never grows its result beyond the limit once the
accumulator is strictly below it. -/
theorem deep_discover_go_length (base : Str) (limit : Nat) :
    ∀ (anchors related : List Str), related.length < limit →
      (DeepHarvester.discover_related_go base limit anchors related).length ≤
        limit := by
  intro anchors
  induction anchors with
  | nil =>
    intro related h
    simpa [DeepHarvester.discover_related_go] using Nat.le_of_lt h
  | cons href rest ih =>
    intro related h
    simp only [DeepHarvester.discover_related_go]
    split
    · exact ih related h
    · split
      · exact ih related h
      · have hlen := length_setInsert related (pyUrljoin base (pyStripWs href))
        split
        · split
          · rename_i hbreak
            omega
          · rename_i hbreak
            exact ih _ (by omega)
        · split
          · rename_i hbreak
            omega
          · rename_i hbreak
            exact ih related h

/-- The multi-engine link discoverer never grows its result beyond the limit
once the accumulator is strictly below it. -/
theorem multi_discover_go_length (base : Str) (limit : Nat) :
    ∀ (anchors related : List Str), related.length < limit →
      (MultiEngine.discover_related_go base limit anchors related).length ≤
        limit := by
  intro anchors
  induction anchors with
  | nil =>
    intro related h
    simpa [MultiEngine.discover_related_go] using Nat.le_of_lt h
  | cons href rest ih =>
    intro related h
    simp only [MultiEngine.discover_related_go]
    split
    · exact ih related h
    · split
      · exact ih related h
      · split
        · exact ih related h
        · have hlen : (related ++ [pyUrljoin base (pyStripWs href)]).length =
            related.length + 1 := by simp
          split
          · split
            · rename_i hbreak
              omega
            · rename_i hbreak
              exact ih _ (by omega)
          · split
            · rename_i hbreak
              omega
            · rename_i hbreak
              exact ih related h

/-- Every URL the deep link discoverer returns either was already in the
accumulator or stems from an anchor that passed the skip checks, carried a
contact keyword, resolved against the base URL, and whose resolved hostname
ends with the base hostname. -/
theorem deep_discover_go_mem (base : Str) (limit : Nat) :
    ∀ (anchors related : List Str) (u : Str),
      u ∈ DeepHarvester.discover_related_go base limit anchors related →
      u ∈ related ∨ ∃ href ∈ anchors,
        ((pyStripWs href).isEmpty ||
          "mailto:".toList.isPrefixOf (pyStripWs href) ||
          "javascript:".toList.isPrefixOf (pyStripWs href) ||
          ['#'].isPrefixOf (pyStripWs href)) = false ∧
        DeepHarvester.CONTACT_KEYWORDS.any
          (fun kw => containsSub (pyLower (pyStripWs href)) kw) = true ∧
        u = pyUrljoin base (pyStripWs href) ∧
        DeepHarvester.same_host base u = true := by
  intro anchors
  induction anchors with
  | nil =>
    intro related u hu
    exact Or.inl (by simpa [DeepHarvester.discover_related_go] using hu)
  | cons href rest ih =>
    intro related u hu
    simp only [DeepHarvester.discover_related_go] at hu
    split at hu
    · rcases ih related u hu with h | ⟨a, ha, hp⟩
      · exact Or.inl h
      · exact Or.inr ⟨a, List.mem_cons_of_mem _ ha, hp⟩
    · rename_i hskip
      split at hu
      · rcases ih related u hu with h | ⟨a, ha, hp⟩
        · exact Or.inl h
        · exact Or.inr ⟨a, List.mem_cons_of_mem _ ha, hp⟩
      · rename_i hhost
        have hskip' :
            ((pyStripWs href).isEmpty ||
              "mailto:".toList.isPrefixOf (pyStripWs href) ||
              "javascript:".toList.isPrefixOf (pyStripWs href) ||
              ['#'].isPrefixOf (pyStripWs href)) = false :=
          Bool.eq_false_iff.mpr hskip
        have hhost' :
            DeepHarvester.same_host base (pyUrljoin base (pyStripWs href))
              = true := not_not.mp hhost
        split at hu
        · rename_i hkw
          split at hu
          · rcases mem_setInsert hu with h | h
            · exact Or.inl h
            · exact Or.inr ⟨href, List.mem_cons_self _ _,
                hskip', hkw, h, h ▸ hhost'⟩
          · rcases ih _ u hu with h | ⟨a, ha, hp⟩
            · rcases mem_setInsert h with h1 | h1
              · exact Or.inl h1
              · exact Or.inr ⟨href, List.mem_cons_self _ _,
                  hskip', hkw, h1, h1 ▸ hhost'⟩
            · exact Or.inr ⟨a, List.mem_cons_of_mem _ ha, hp⟩
        · split at hu
          · exact Or.inl hu
          · rcases ih related u hu with h | ⟨a, ha, hp⟩
            · exact Or.inl h
            · exact Or.inr ⟨a, List.mem_cons_of_mem _ ha, hp⟩

/-- Every URL the multi-engine link discoverer returns either was already in
the accumulator or stems from an anchor that passed the skip checks, carried
a contact keyword, resolved against the base URL, and whose resolved
hostname is nonempty and equal to the base hostname, not skipped by the
social and excluded-domain filter. -/
theorem multi_discover_go_mem (base : Str) (limit : Nat) :
    ∀ (anchors related : List Str) (u : Str),
      u ∈ MultiEngine.discover_related_go base limit anchors related →
      u ∈ related ∨ ∃ href ∈ anchors,
        ((pyStripWs href).isEmpty ||
          "mailto:".toList.isPrefixOf (pyStripWs href) ||
          "javascript:".toList.isPrefixOf (pyStripWs href) ||
          ['#'].isPrefixOf (pyStripWs href)) = false ∧
        MultiEngine.CONTACT_KEYWORDS.any
          (fun kw => containsSub (pyLower (pyStripWs href)) kw) = true ∧
        u = pyUrljoin base (pyStripWs href) ∧
        (MultiEngine.hostname_for u).isEmpty = false ∧
        MultiEngine.hostname_for u = MultiEngine.hostname_for base ∧
        MultiEngine.should_skip_url u = false := by
  intro anchors
  induction anchors with
  | nil =>
    intro related u hu
    exact Or.inl (by simpa [MultiEngine.discover_related_go] using hu)
  | cons href rest ih =>
    intro related u hu
    simp only [MultiEngine.discover_related_go] at hu
    split at hu
    · rcases ih related u hu with h | ⟨a, ha, hp⟩
      · exact Or.inl h
      · exact Or.inr ⟨a, List.mem_cons_of_mem _ ha, hp⟩
    · rename_i hskip
      split at hu
      · rcases ih related u hu with h | ⟨a, ha, hp⟩
        · exact Or.inl h
        · exact Or.inr ⟨a, List.mem_cons_of_mem _ ha, hp⟩
      · rename_i hhost
        split at hu
        · rcases ih related u hu with h | ⟨a, ha, hp⟩
          · exact Or.inl h
          · exact Or.inr ⟨a, List.mem_cons_of_mem _ ha, hp⟩
        · rename_i hskipurl
          have hskip' :
              ((pyStripWs href).isEmpty ||
                "mailto:".toList.isPrefixOf (pyStripWs href) ||
                "javascript:".toList.isPrefixOf (pyStripWs href) ||
                ['#'].isPrefixOf (pyStripWs href)) = false :=
            Bool.eq_false_iff.mpr hskip
          simp only [Bool.or_eq_true, decide_eq_true_eq, not_or] at hhost
          obtain ⟨hhost1p, hhost2p⟩ := hhost
          have hhost1 : (MultiEngine.hostname_for
              (pyUrljoin base (pyStripWs href))).isEmpty = false :=
            Bool.eq_false_iff.mpr hhost1p
          have hhost2 : MultiEngine.hostname_for
              (pyUrljoin base (pyStripWs href)) =
                MultiEngine.hostname_for base := not_not.mp hhost2p
          have hskipurl' : MultiEngine.should_skip_url
              (pyUrljoin base (pyStripWs href)) = false :=
            Bool.eq_false_iff.mpr hskipurl
          split at hu
          · rename_i hkw
            split at hu
            · rcases List.mem_append.mp hu with h | h
              · exact Or.inl h
              · have h1 := List.mem_singleton.mp h
                exact Or.inr ⟨href, List.mem_cons_self _ _, hskip', hkw, h1,
                  h1 ▸ hhost1, h1 ▸ hhost2, h1 ▸ hskipurl'⟩
            · rcases ih _ u hu with h | ⟨a, ha, hp⟩
              · rcases List.mem_append.mp h with h1 | h1
                · exact Or.inl h1
                · have h2 := List.mem_singleton.mp h1
                  exact Or.inr ⟨href, List.mem_cons_self _ _, hskip', hkw, h2,
                    h2 ▸ hhost1, h2 ▸ hhost2, h2 ▸ hskipurl'⟩
              · exact Or.inr ⟨a, List.mem_cons_of_mem _ ha, hp⟩
          · split at hu
            · exact Or.inl hu
            · rcases ih related u hu with h | ⟨a, ha, hp⟩
              · exact Or.inl h
              · exact Or.inr ⟨a, List.mem_cons_of_mem _ ha, hp⟩

/-- C5 counterexample. With limit 0 the deep discoverer returns one URL, so
the returned count exceeds the limit (the break test runs only after an
anchor has been added), and the returned URL's hostname differs from the
base hostname although same_host accepted it, because same_host only
compares hostname suffixes. -/
theorem discover_limit_and_host_violated :
    DeepHarvester.discover_related "http://a.com/".toList
      ["http://evila.com/contact".toList] 0 =
      ["http://evila.com/contact".toList] ∧
    urlHostname "http://evila.com/contact".toList ≠
      urlHostname "http://a.com/".toList := by
  constructor
  · decide
  · decide

/-- C5 amended. For a positive limit, both link discoverers return at most
limit URLs; every returned URL stems from an anchor whose stripped href is
nonempty and does not begin with mailto:, javascript: or a fragment, whose
lowercased href contains a contact keyword, and which was resolved against
the base URL. The multi-engine discoverer returns only URLs whose hostname
is nonempty and equal to the base hostname (and not on the social or
excluded lists), while the deep discoverer only guarantees that the returned
hostname ends with the base hostname. -/
theorem discover_related_contract (base : Str) (anchors : List Str)
    (limit : Nat) (hpos : 1 ≤ limit) :
    (DeepHarvester.discover_related base anchors limit).length ≤ limit ∧
    (MultiEngine.discover_related base anchors limit).length ≤ limit ∧
    (∀ u ∈ DeepHarvester.discover_related base anchors limit,
      ∃ href ∈ anchors,
        ((pyStripWs href).isEmpty ||
          "mailto:".toList.isPrefixOf (pyStripWs href) ||
          "javascript:".toList.isPrefixOf (pyStripWs href) ||
          ['#'].isPrefixOf (pyStripWs href)) = false ∧
        DeepHarvester.CONTACT_KEYWORDS.any
          (fun kw => containsSub (pyLower (pyStripWs href)) kw) = true ∧
        u = pyUrljoin base (pyStripWs href) ∧
        (pyBeforeFirst ':' (urlHostname base)).isSuffixOf (urlHostname u)
          = true) ∧
    (∀ u ∈ MultiEngine.discover_related base anchors limit,
      ∃ href ∈ anchors,
        ((pyStripWs href).isEmpty ||
          "mailto:".toList.isPrefixOf (pyStripWs href) ||
          "javascript:".toList.isPrefixOf (pyStripWs href) ||
          ['#'].isPrefixOf (pyStripWs href)) = false ∧
        MultiEngine.CONTACT_KEYWORDS.any
          (fun kw => containsSub (pyLower (pyStripWs href)) kw) = true ∧
        u = pyUrljoin base (pyStripWs href) ∧
        (MultiEngine.hostname_for u).isEmpty = false ∧
        MultiEngine.hostname_for u = MultiEngine.hostname_for base ∧
        MultiEngine.should_skip_url u = false) := by
  refine ⟨?_, ?_, ?_, ?_⟩
  · exact deep_discover_go_length base limit anchors []
      (by simpa using hpos)
  · exact multi_discover_go_length base limit anchors []
      (by simpa using hpos)
  · intro u hu
    rcases deep_discover_go_mem base limit anchors [] u hu with h | ⟨a, ha, h1, h2, h3, h4⟩
    · simp at h
    · exact ⟨a, ha, h1, h2, h3, h4⟩
  · intro u hu
    rcases multi_discover_go_mem base limit anchors [] u hu with h | ⟨a, ha, hp⟩
    · simp at h
    · exact ⟨a, ha, hp⟩

/-- Witness for C5 amended at a concrete base URL, anchor list and limit. -/
theorem discover_related_contract_witness :
    (DeepHarvester.discover_related "http://a.com/base".toList
      ["/contact".toList, "mailto:x@a.com".toList] 4).length ≤ 4 ∧
    (MultiEngine.discover_related "http://a.com/base".toList
      ["/contact".toList, "mailto:x@a.com".toList] 4).length ≤ 4 ∧
    (∀ u ∈ DeepHarvester.discover_related "http://a.com/base".toList
        ["/contact".toList, "mailto:x@a.com".toList] 4,
      ∃ href ∈ ["/contact".toList, "mailto:x@a.com".toList],
        ((pyStripWs href).isEmpty ||
          "mailto:".toList.isPrefixOf (pyStripWs href) ||
          "javascript:".toList.isPrefixOf (pyStripWs href) ||
          ['#'].isPrefixOf (pyStripWs href)) = false ∧
        DeepHarvester.CONTACT_KEYWORDS.any
          (fun kw => containsSub (pyLower (pyStripWs href)) kw) = true ∧
        u = pyUrljoin "http://a.com/base".toList (pyStripWs href) ∧
        (pyBeforeFirst ':' (urlHostname "http://a.com/base".toList)).isSuffixOf
          (urlHostname u) = true) ∧
    (∀ u ∈ MultiEngine.discover_related "http://a.com/base".toList
        ["/contact".toList, "mailto:x@a.com".toList] 4,
      ∃ href ∈ ["/contact".toList, "mailto:x@a.com".toList],
        ((pyStripWs href).isEmpty ||
          "mailto:".toList.isPrefixOf (pyStripWs href) ||
          "javascript:".toList.isPrefixOf (pyStripWs href) ||
          ['#'].isPrefixOf (pyStripWs href)) = false ∧
        MultiEngine.CONTACT_KEYWORDS.any
          (fun kw => containsSub (pyLower (pyStripWs href)) kw) = true ∧
        u = pyUrljoin "http://a.com/base".toList (pyStripWs href) ∧
        (MultiEngine.hostname_for u).isEmpty = false ∧
        MultiEngine.hostname_for u = MultiEngine.hostname_for
          "http://a.com/base".toList ∧
        MultiEngine.should_skip_url u = false) :=
  discover_related_contract "http://a.com/base".toList
    ["/contact".toList, "mailto:x@a.com".toList] 4 (by decide)

/-- The deep crawl loop's fetch trace stays duplicate-free: every fetched URL
is recorded in the visited set first, and visited URLs are never fetched
again. -/
theorem harvest_go_trace_nodup (web : Str → Str) (anchorsOf : Str → List Str)
    (max_pages : Nat) :
    ∀ (fuel : Nat) (queue visited collected trace : List Str),
      trace.Nodup → (∀ u ∈ trace, u ∈ visited) →
      (DeepHarvester.harvest_emails_go web anchorsOf max_pages fuel queue
        visited collected trace).2.Nodup := by
  intro fuel
  induction fuel with
  | zero =>
    intro queue visited collected trace h1 h2
    simpa [DeepHarvester.harvest_emails_go] using h1
  | succ n ih =>
    intro queue visited collected trace h1 h2
    cases queue with
    | nil => simpa [DeepHarvester.harvest_emails_go] using h1
    | cons current qrest =>
      simp only [DeepHarvester.harvest_emails_go]
      split
      · simpa using h1
      · split
        · exact ih qrest visited collected trace h1 h2
        · rename_i hnc
          have hcur : current ∉ visited := by simpa using hnc
          have h1' : (trace ++ [current]).Nodup := by
            rw [List.nodup_append]
            refine ⟨h1, List.nodup_singleton _, ?_⟩
            intro a ha hb
            rw [List.mem_singleton] at hb
            subst hb
            exact hcur (h2 a ha)
          have h2' : ∀ u ∈ trace ++ [current], u ∈ visited ++ [current] := by
            intro u hu
            rcases List.mem_append.mp hu with h | h
            · exact List.mem_append_left _ (h2 u h)
            · exact List.mem_append_right _ h
          split
          · exact ih qrest _ collected _ h1' h2'
          · exact ih _ _ _ _ h1' h2'

/-- The deep crawl loop's fetch trace grows by at most the remaining page
budget: a URL is fetched only while the visited count is below max_pages,
and each fetch enlarges the visited set. -/
theorem harvest_go_trace_length (web : Str → Str) (anchorsOf : Str → List Str)
    (max_pages : Nat) :
    ∀ (fuel : Nat) (queue visited collected trace : List Str),
      (DeepHarvester.harvest_emails_go web anchorsOf max_pages fuel queue
        visited collected trace).2.length ≤
        trace.length + (max_pages - visited.length) := by
  intro fuel
  induction fuel with
  | zero =>
    intro queue visited collected trace
    simp [DeepHarvester.harvest_emails_go]
  | succ n ih =>
    intro queue visited collected trace
    cases queue with
    | nil => simp [DeepHarvester.harvest_emails_go]
    | cons current qrest =>
      simp only [DeepHarvester.harvest_emails_go]
      split
      · simp
      · rename_i hcond
        have hlt : visited.length < max_pages := by
          rcases not_or.mp hcond with ⟨_, h⟩
          exact not_not.mp h
        split
        · exact le_trans (ih qrest visited collected trace) (by omega)
        · split
          · refine le_trans (ih qrest (visited ++ [current]) collected
              (trace ++ [current])) ?_
            simp only [List.length_append, List.length_singleton]
            omega
          · refine le_trans (ih _ (visited ++ [current]) _
              (trace ++ [current])) ?_
            simp only [List.length_append, List.length_singleton]
            omega

/-- The multi-engine session loop's fetch trace stays duplicate-free: every
URL passed to fetch_html is recorded in the per-session seen set first, and
seen URLs are skipped. -/
theorem multi_session_trace_nodup (web : Str → Option Str)
    (anchorsOf : Str → List Str) (url : Str) :
    ∀ (fuel : Nat) (queue seen vis emails trace : List Str),
      trace.Nodup → (∀ u ∈ trace, u ∈ seen) →
      (MultiEngine.extract_emails_from_url_go web anchorsOf url fuel queue
        seen vis emails trace).2.1.Nodup := by
  intro fuel
  induction fuel with
  | zero =>
    intro queue seen vis emails trace h1 h2
    simpa [MultiEngine.extract_emails_from_url_go] using h1
  | succ n ih =>
    intro queue seen vis emails trace h1 h2
    cases queue with
    | nil => simpa [MultiEngine.extract_emails_from_url_go] using h1
    | cons current qrest =>
      simp only [MultiEngine.extract_emails_from_url_go]
      split
      · simpa using h1
      · split
        · exact ih qrest seen vis emails trace h1 h2
        · rename_i hnc
          have hcur : current ∉ seen := by
            intro hmem
            exact hnc (by simp [hmem])
          have h1' : (trace ++ [current]).Nodup := by
            rw [List.nodup_append]
            refine ⟨h1, List.nodup_singleton _, ?_⟩
            intro a ha hb
            rw [List.mem_singleton] at hb
            subst hb
            exact hcur (h2 a ha)
          have h2' : ∀ u ∈ trace ++ [current], u ∈ seen ++ [current] := by
            intro u hu
            rcases List.mem_append.mp hu with h | h
            · exact List.mem_append_left _ (h2 u h)
            · exact List.mem_append_right _ h
          split
          · exact ih qrest _ _ emails _ h1' h2'
          · exact ih _ _ _ _ _ h1' h2'

/-- The multi-engine session loop's fetch trace grows by at most the
remaining session budget of six pages. -/
theorem multi_session_trace_length (web : Str → Option Str)
    (anchorsOf : Str → List Str) (url : Str) :
    ∀ (fuel : Nat) (queue seen vis emails trace : List Str),
      (MultiEngine.extract_emails_from_url_go web anchorsOf url fuel queue
        seen vis emails trace).2.1.length ≤ trace.length + (6 - seen.length) := by
  intro fuel
  induction fuel with
  | zero =>
    intro queue seen vis emails trace
    simp [MultiEngine.extract_emails_from_url_go]
  | succ n ih =>
    intro queue seen vis emails trace
    cases queue with
    | nil => simp [MultiEngine.extract_emails_from_url_go]
    | cons current qrest =>
      simp only [MultiEngine.extract_emails_from_url_go]
      split
      · simp
      · rename_i hcond
        have hlt : seen.length < 6 := by
          rcases not_or.mp hcond with ⟨_, h⟩
          exact not_not.mp h
        split
        · exact le_trans (ih qrest seen vis emails trace) (by omega)
        · split
          · refine le_trans (ih qrest (seen ++ [current]) _ emails
              (trace ++ [current])) ?_
            simp only [List.length_append, List.length_singleton]
            omega
          · refine le_trans (ih _ (seen ++ [current]) _ _
              (trace ++ [current])) ?_
            simp only [List.length_append, List.length_singleton]
            omega

/-- C1. Within one crawl session, every URL is fetched at most once: both
session loops mark a URL in their visited/seen set the first time it is
presented and skip it on every later presentation, so the fetch trace
contains each URL at most once, for any transport, page parser, fuel, seed
and budget. -/
theorem url_fetched_at_most_once (web : Str → Str) (webM : Str → Option Str)
    (anchorsOf anchorsOfM : Str → List Str) (fuel : Nat) (url : Str)
    (max_pages : Nat) :
    (DeepHarvester.harvest_emails web anchorsOf fuel url max_pages).2.Nodup ∧
    (MultiEngine.extract_emails_from_url webM anchorsOfM fuel url).2.1.Nodup := by
  constructor
  · exact harvest_go_trace_nodup web anchorsOf max_pages fuel [url] [] [] []
      (List.nodup_nil) (by simp)
  · exact multi_session_trace_nodup webM anchorsOfM url fuel [url] [] [] [] []
      (List.nodup_nil) (by simp)

/-- C2. Within one crawl session the page budget bounds the number of
fetches: the deep harvester fetches at most max_pages pages and the
multi-engine harvester at most six, so in particular the number of fetched
pages of any single host never exceeds the budget. -/
theorem host_budget_never_exceeded (web : Str → Str) (webM : Str → Option Str)
    (anchorsOf anchorsOfM : Str → List Str) (fuel : Nat) (url : Str)
    (max_pages : Nat) (host : Str) :
    (DeepHarvester.harvest_emails web anchorsOf fuel url max_pages).2.length
      ≤ max_pages ∧
    (DeepHarvester.harvest_emails web anchorsOf fuel url max_pages).2.countP
      (fun v => urlHostname v == host) ≤ max_pages ∧
    (MultiEngine.extract_emails_from_url webM anchorsOfM fuel url).2.1.length
      ≤ 6 ∧
    (MultiEngine.extract_emails_from_url webM anchorsOfM fuel url).2.1.countP
      (fun v => urlHostname v == host) ≤ 6 := by
  have hd := harvest_go_trace_length web anchorsOf max_pages fuel [url] [] [] []
  have hm := multi_session_trace_length webM anchorsOfM url fuel [url] [] [] [] []
  simp only [List.length_nil, Nat.zero_add, Nat.sub_zero] at hd hm
  refine ⟨hd, le_trans (List.countP_le_length _) hd,
    hm, le_trans (List.countP_le_length _) hm⟩

namespace DeepHarvester

/-- The flattened stream of candidate rows after URL-level deduplication: for
each surviving SERP result, one candidate row per harvested email in
iteration order. The aggregation of main equals first-wins email
deduplication of this stream. -/
def flatSurviving : List Str → List ItemResult → List Row
  | _, [] => []
  | seenUrls, item :: rest =>
    if seenUrls.contains item.url then flatSurviving seenUrls rest
    else (item.emails.map (mkRow item.query item.title item.url)) ++
      flatSurviving (item.url :: seenUrls) rest

end DeepHarvester

theorem mkRow_email (q t u e : Str) :
    (DeepHarvester.mkRow q t u e).email = e := rfl

theorem aggregate_emails_eq (q t u : Str) :
    ∀ (es : List Str) (seen : List Str),
      DeepHarvester.aggregate_emails q t u es seen =
        (dfGo seen (es.map (DeepHarvester.mkRow q t u)),
         dfSeen seen (es.map (DeepHarvester.mkRow q t u))) := by
  intro es
  induction es with
  | nil => intro seen; rfl
  | cons e rest ih =>
    intro seen
    by_cases hc : e ∈ seen
    · simp [DeepHarvester.aggregate_emails, dfGo, dfSeen, mkRow_email, hc,
        ih seen]
    · simp [DeepHarvester.aggregate_emails, dfGo, dfSeen, mkRow_email, hc,
        ih (e :: seen)]

theorem dfGo_append :
    ∀ (a : List Row) (seen : List Str) (b : List Row),
      dfGo seen (a ++ b) = dfGo seen a ++ dfGo (dfSeen seen a) b := by
  intro a
  induction a with
  | nil => intro seen b; rfl
  | cons r rest ih =>
    intro seen b
    simp only [List.cons_append, dfGo, dfSeen]
    split
    · exact ih seen b
    · rw [List.cons_append, ← ih (r.email :: seen) b]
      rfl

theorem aggregate_go_eq :
    ∀ (items : List DeepHarvester.ItemResult) (seenUrls seenEmails : List Str),
      DeepHarvester.aggregate_go seenUrls seenEmails items =
        dfGo seenEmails (DeepHarvester.flatSurviving seenUrls items) := by
  intro items
  induction items with
  | nil => intro seenUrls seenEmails; rfl
  | cons item rest ih =>
    intro seenUrls seenEmails
    simp only [DeepHarvester.aggregate_go, DeepHarvester.flatSurviving]
    split
    · exact ih _ _
    · rw [aggregate_emails_eq, ih, dfGo_append]

theorem dfGo_mem_email_not_seen :
    ∀ (l : List Row) (seen : List Str) (r : Row),
      r ∈ dfGo seen l → r.email ∉ seen := by
  intro l
  induction l with
  | nil => intro seen r hr; simp [dfGo] at hr
  | cons r0 rest ih =>
    intro seen r hr
    simp only [dfGo] at hr
    split at hr
    · exact ih seen r hr
    · rename_i hnc
      rcases List.mem_cons.mp hr with h | h
      · subst h
        simpa using hnc
      · intro hmem
        exact ih _ r h (List.mem_cons_of_mem _ hmem)

theorem dfGo_emails_nodup :
    ∀ (l : List Row) (seen : List Str),
      ((dfGo seen l).map Row.email).Nodup := by
  intro l
  induction l with
  | nil => intro seen; simp [dfGo]
  | cons r0 rest ih =>
    intro seen
    simp only [dfGo]
    split
    · exact ih seen
    · rw [List.map_cons, List.nodup_cons]
      refine ⟨?_, ih _⟩
      intro hmem
      rcases List.mem_map.mp hmem with ⟨r, hr, he⟩
      exact dfGo_mem_email_not_seen rest _ r hr (by simp [he])

theorem dfGo_sublist :
    ∀ (l : List Row) (seen : List Str), List.Sublist (dfGo seen l) l := by
  intro l
  induction l with
  | nil => intro seen; simp [dfGo]
  | cons r0 rest ih =>
    intro seen
    simp only [dfGo]
    split
    · exact (ih seen).cons r0
    · exact (ih (r0.email :: seen)).cons₂ r0

theorem dfGo_find? :
    ∀ (l : List Row) (seen : List Str) (e : Str), e ∉ seen →
      (dfGo seen l).find? (fun r => r.email == e) =
        l.find? (fun r => r.email == e) := by
  intro l
  induction l with
  | nil => intro seen e he; rfl
  | cons r0 rest ih =>
    intro seen e he
    simp only [dfGo]
    split
    · rename_i hc
      have hne : (r0.email == e) = false := by
        rw [beq_eq_false_iff_ne]
        intro hcontra
        rw [hcontra] at hc
        exact he (by simpa using hc)
      rw [List.find?_cons_of_neg _ (by simp [hne]), ih seen e he]
    · rename_i hc
      by_cases heq : r0.email = e
      · rw [List.find?_cons_of_pos _ (by simp [heq]),
          List.find?_cons_of_pos _ (by simp [heq])]
      · rw [List.find?_cons_of_neg _ (by simp [heq]),
          List.find?_cons_of_neg _ (by simp [heq])]
        refine ih _ e ?_
        intro hmem
        rcases List.mem_cons.mp hmem with h | h
        · exact heq h.symm
        · exact he h

theorem flatSurviving_lower (items : List DeepHarvester.ItemResult)
    (h : ∀ it ∈ items, ∀ a ∈ it.emails, pyLower a = a) :
    ∀ (seenUrls : List Str) (r : Row),
      r ∈ DeepHarvester.flatSurviving seenUrls items →
        pyLower r.email = r.email := by
  induction items with
  | nil => intro seenUrls r hr; simp [DeepHarvester.flatSurviving] at hr
  | cons item rest ih =>
    intro seenUrls r hr
    simp only [DeepHarvester.flatSurviving] at hr
    split at hr
    · exact ih (fun it hit => h it (List.mem_cons_of_mem _ hit)) _ r hr
    · rcases List.mem_append.mp hr with hm | hm
      · rcases List.mem_map.mp hm with ⟨a, ha, he⟩
        have := h item (List.mem_cons_self _ _) a ha
        rw [← he]
        exact this
      · exact ih (fun it hit => h it (List.mem_cons_of_mem _ hit)) _ r hm

theorem setInsert_nodup {s : List Str} (h : s.Nodup) (a : Str) :
    (setInsert s a).Nodup := by
  unfold setInsert
  split
  · exact h
  · rename_i hnc
    rw [List.nodup_append]
    exact ⟨h, List.nodup_singleton _, by
      intro x hx hmem
      rw [List.mem_singleton] at hmem
      subst hmem
      exact hnc (by simpa using hx)⟩

theorem pyDedup_nodup (l : List Str) : (pyDedup l).Nodup := by
  have : ∀ (l : List Str) (acc : List Str), acc.Nodup →
      (l.foldl setInsert acc).Nodup := by
    intro l
    induction l with
    | nil => intro acc h; exact h
    | cons a rest ih => intro acc h; exact ih _ (setInsert_nodup h a)
  exact this l [] List.nodup_nil

theorem sortedInsert_perm (le : Str → Str → Bool) (a : Str) :
    ∀ l : List Str, (sortedInsert le a l).Perm (a :: l) := by
  intro l
  induction l with
  | nil => simp [sortedInsert]
  | cons b rest ih =>
    simp only [sortedInsert]
    split
    · exact List.Perm.refl _
    · exact ((ih.cons b).trans (List.Perm.swap a b rest))

theorem insertionSort_perm (le : Str → Str → Bool) :
    ∀ l : List Str, (insertionSort le l).Perm l := by
  intro l
  induction l with
  | nil => simp [insertionSort]
  | cons a rest ih =>
    exact (sortedInsert_perm le a _).trans (ih.cons a)

/-- Every email the deep harvester's extractor emits is lowercase-fixed, so
the candidate addresses fed into the aggregation are normalized. -/
theorem mem_deep_extract_emails_lower {t m : Str}
    (hm : m ∈ DeepHarvester.extract_emails t) : pyLower m = m := by
  unfold DeepHarvester.extract_emails at hm
  split at hm
  · simp at hm
  · rcases mem_foldl_imp (P := fun x => pyLower x = x)
      (fun acc b x hx => by
        rcases mem_setInsert hx with h | h
        · exact Or.inl h
        · exact Or.inr (h ▸ pyLower_idem _)) _ [] m hm with h | h
    · simp at h
    · exact h

/-- Every email collected by the deep crawl loop is lowercase-fixed, because
each collected address comes from extract_emails. -/
theorem harvest_collected_lower (web : Str → Str) (anchorsOf : Str → List Str)
    (max_pages : Nat) :
    ∀ (fuel : Nat) (queue visited collected trace : List Str),
      (∀ e ∈ collected, pyLower e = e) →
      ∀ e ∈ (DeepHarvester.harvest_emails_go web anchorsOf max_pages fuel
        queue visited collected trace).1, pyLower e = e := by
  intro fuel
  induction fuel with
  | zero =>
    intro queue visited collected trace h
    simpa [DeepHarvester.harvest_emails_go] using h
  | succ n ih =>
    intro queue visited collected trace h
    cases queue with
    | nil => simpa [DeepHarvester.harvest_emails_go] using h
    | cons current qrest =>
      simp only [DeepHarvester.harvest_emails_go]
      split
      · simpa using h
      · split
        · exact ih qrest visited collected trace h
        · split
          · exact ih qrest _ collected _ h
          · refine ih _ _ _ _ ?_
            intro e he
            rcases mem_setUnionL he with h1 | h1
            · exact h e h1
            · exact mem_deep_extract_emails_lower h1

/-- C3. The Aggregator keeps at most one record per lowercased address and
the first accepted record's provenance wins: in the deep harvester's main
loop the stored rows have pairwise-distinct (lowercase-normalized) emails
and the stored row for any address equals the first candidate row carrying
that address in the URL-deduplicated candidate stream, while the
multi-engine writer emits one row per address of the deduplicated sorted
set. The lowercase premise is discharged by the pipeline itself: every email
the deep crawl loop collects is lowercase-fixed. -/
theorem aggregator_one_record_per_address
    (items : List DeepHarvester.ItemResult)
    (hlow : ∀ it ∈ items, ∀ a ∈ it.emails, pyLower a = a) :
    ((DeepHarvester.aggregate items).map (fun r => pyLower r.email)).Nodup ∧
    (∀ e : Str,
      (DeepHarvester.aggregate items).find? (fun r => r.email == e) =
        (DeepHarvester.flatSurviving [] items).find?
          (fun r => r.email == e)) ∧
    (∀ all_emails : List Str,
      ((MultiEngine.main_rows all_emails).map Row.email).Nodup) ∧
    (∀ (web : Str → Str) (anchorsOf : Str → List Str) (fuel : Nat)
      (url : Str) (max_pages : Nat),
      ∀ e ∈ (DeepHarvester.harvest_emails web anchorsOf fuel url
        max_pages).1, pyLower e = e) := by
  refine ⟨?_, ?_, ?_, ?_⟩
  · have heq : DeepHarvester.aggregate items =
        dfGo [] (DeepHarvester.flatSurviving [] items) :=
      aggregate_go_eq items [] []
    rw [heq]
    have hmap : (dfGo [] (DeepHarvester.flatSurviving [] items)).map
        (fun r => pyLower r.email) =
        (dfGo [] (DeepHarvester.flatSurviving [] items)).map Row.email := by
      refine List.map_congr_left ?_
      intro r hr
      exact flatSurviving_lower items hlow [] r
        ((dfGo_sublist _ _).mem hr)
    rw [hmap]
    exact dfGo_emails_nodup _ []
  · intro e
    have heq2 : DeepHarvester.aggregate items =
        dfGo [] (DeepHarvester.flatSurviving [] items) :=
      aggregate_go_eq items [] []
    rw [heq2]
    exact dfGo_find? _ [] e (by simp)
  · intro all_emails
    have hmap : (MultiEngine.main_rows all_emails).map Row.email =
        insertionSort lexLt (pyDedup all_emails) := by
      unfold MultiEngine.main_rows
      rw [List.map_map]
      exact (List.map_congr_left fun x _ => rfl).trans (List.map_id _)
    rw [hmap]
    exact ((insertionSort_perm lexLt (pyDedup all_emails)).nodup_iff).mpr
      (pyDedup_nodup all_emails)
  · intro web anchorsOf fuel url max_pages e he
    exact harvest_collected_lower web anchorsOf max_pages fuel [url] [] [] []
      (by simp) e he

/-- Witness for C3 at a concrete pair of SERP results sharing an address. -/
theorem aggregator_one_record_per_address_witness :
    ((DeepHarvester.aggregate
      [⟨"q1".toList, "t1".toList, "u1".toList, ["a@b.com".toList]⟩,
       ⟨"q2".toList, "t2".toList, "u2".toList,
         ["a@b.com".toList, "c@d.com".toList]⟩]).map
      (fun r => pyLower r.email)).Nodup ∧
    (DeepHarvester.aggregate
      [⟨"q1".toList, "t1".toList, "u1".toList, ["a@b.com".toList]⟩,
       ⟨"q2".toList, "t2".toList, "u2".toList,
         ["a@b.com".toList, "c@d.com".toList]⟩]).find?
      (fun r => r.email == "a@b.com".toList) =
      (DeepHarvester.flatSurviving []
        [⟨"q1".toList, "t1".toList, "u1".toList, ["a@b.com".toList]⟩,
         ⟨"q2".toList, "t2".toList, "u2".toList,
           ["a@b.com".toList, "c@d.com".toList]⟩]).find?
        (fun r => r.email == "a@b.com".toList) ∧
    ((MultiEngine.main_rows
      ["a@b.com".toList, "a@b.com".toList, "c@d.com".toList]).map
      Row.email).Nodup ∧
    pyLower "x@y.com".toList = "x@y.com".toList := by
  have h := aggregator_one_record_per_address
    [⟨"q1".toList, "t1".toList, "u1".toList, ["a@b.com".toList]⟩,
     ⟨"q2".toList, "t2".toList, "u2".toList,
       ["a@b.com".toList, "c@d.com".toList]⟩] (by decide)
  exact ⟨h.1, h.2.1 "a@b.com".toList,
    h.2.2.1 ["a@b.com".toList, "a@b.com".toList, "c@d.com".toList],
    h.2.2.2 (fun _ => "reach us at X@Y.com today".toList) (fun _ => []) 3
      "http://x.com/".toList 2 "x@y.com".toList (by decide)⟩

end EmailScraping
